import Mathlib

/-!
Shallow embedding of the pharmacist-assistant core
(`src/prescription_utils.py`): the prescription parser
(`parse_prescription`), the inventory lookup (`check_medicine_in_db`),
the order creator (`create_medicine_order`) and the keyword-context
helper (`get_context`).  Python strings are modelled as `List Char`,
Python `int(...)` as `pyInt`, and the SQLite `LIKE` operator under its
default collation (ASCII case-insensitive) as `likeMatch`.
-/

namespace PharmacyAssistant

/-- The ASCII whitespace characters recognised by Python `str.strip()`. -/
def isPySpace (c : Char) : Bool :=
  c == ' ' || c == '\t' || c == '\n' || c == '\r' || c == '\x0b' || c == '\x0c'

/-- Python `str.strip()`: remove leading and trailing whitespace. -/
def pyStrip (s : List Char) : List Char :=
  ((s.dropWhile isPySpace).reverse.dropWhile isPySpace).reverse

/-- Python `str.lower()` restricted to ASCII letters (the only characters
the embedded code ever compares). -/
def pyToLower (c : Char) : Char :=
  if 'A' ≤ c ∧ c ≤ 'Z' then Char.ofNat (c.toNat + 32) else c

/-- Python `str.lower()` on a whole string. -/
def pyLower (s : List Char) : List Char := s.map pyToLower

/-- Python substring containment `sub in hay`. -/
def pyIn (sub : List Char) : List Char → Bool
  | [] => sub.isEmpty
  | c :: rest => sub.isPrefixOf (c :: rest) || pyIn sub rest

/-- Python `line.split(sep, 1)` as used by the parser: `none` when the line
holds no colon (the `if sep in line` guard), otherwise the parts before and
after the first colon. -/
def splitColon : List Char → Option (List Char × List Char)
  | [] => none
  | c :: rest =>
    if c = ':' then some ([], rest)
    else (splitColon rest).map (fun p => (c :: p.1, p.2))

/-- Python `text.split(sep)` with a newline separator: `k` newlines give
`k + 1` parts, and the empty string gives `[""]`. -/
def splitLines : List Char → List (List Char)
  | [] => [[]]
  | c :: rest =>
    if c = '\n' then [] :: splitLines rest
    else
      match splitLines rest with
      | [] => [[c]]
      | l :: ls => (c :: l) :: ls

/-- Value of a run of decimal digits already begun, allowing the single
underscores Python `int(...)` accepts between digits. -/
def digitTail (acc : Nat) : List Char → Option Nat
  | [] => some acc
  | [c] => if c.isDigit then some (acc * 10 + (c.toNat - 48)) else none
  | c :: d :: rest =>
    if c.isDigit then digitTail (acc * 10 + (c.toNat - 48)) (d :: rest)
    else if c == '_' && d.isDigit then digitTail (acc * 10 + (d.toNat - 48)) rest
    else none

/-- Value of a nonempty digit run; `none` when the first character is not a
decimal digit. -/
def digitsVal : List Char → Option Nat
  | [] => none
  | c :: rest => if c.isDigit then digitTail (c.toNat - 48) rest else none

/-- Python `int(...)` applied to a string: optional surrounding whitespace,
an optional sign, then ASCII decimal digits (single underscores allowed in
between).  `none` models the `ValueError` caught by the code's `except`. -/
def pyInt (s : List Char) : Option Int :=
  match pyStrip s with
  | [] => none
  | '+' :: rest => (digitsVal rest).map (fun n => (n : Int))
  | '-' :: rest => (digitsVal rest).map (fun n => -(n : Int))
  | c :: rest => (digitsVal (c :: rest)).map (fun n => (n : Int))

/-- The fixed-shape record returned by `parse_prescription`.  Python keeps
`quantity` as either an `int` or the raw string; the sum records that. -/
structure ParsedPrescription where
  patient_name : List Char
  doctor_name : List Char
  medicine_name : List Char
  dosage : List Char
  quantity : Int ⊕ List Char
  instructions : List Char
deriving DecidableEq

/-- The `"Not found"` sentinel default. -/
def notFound : List Char := "Not found".toList

/-- The record of defaults `parse_prescription` starts from. -/
def defaultResult : ParsedPrescription :=
  { patient_name := notFound, doctor_name := notFound, medicine_name := notFound,
    dosage := notFound, quantity := Sum.inl 0, instructions := notFound }

def tokPatient : List Char := "patient".toList
def tokDoctor : List Char := "doctor".toList
def tokMedicine : List Char := "medicine".toList
def tokDosage : List Char := "dosage".toList
def tokQuantity : List Char := "quantity".toList
def tokInstr : List Char := "instructions".toList

def plPatient : List Char := "[Patient Name]".toList
def plDoctor : List Char := "[Doctor Name]".toList
def plMedicine : List Char := "[Medicine Name]".toList
def plDosage : List Char := "[Dosage]".toList
def plQuantity : List Char := "[Quantity]".toList
def plInstr : List Char := "[Instructions if any]".toList

/-- The `elif` chain of `parse_prescription` on a normalised key and a
trimmed value: it assigns at most one field of the record. -/
def processBranches (r : ParsedPrescription) (key value : List Char) : ParsedPrescription :=
  if pyIn tokPatient key && !(value == plPatient) then
      { r with patient_name := value }
    else if pyIn tokDoctor key && !(value == plDoctor) then
      { r with doctor_name := value }
    else if pyIn tokMedicine key && !(value == plMedicine) then
      { r with medicine_name := value }
    else if pyIn tokDosage key && !(value == plDosage) then
      { r with dosage := value }
    else if pyIn tokQuantity key && !(value == plQuantity) then
      match pyInt value with
      | some n => { r with quantity := Sum.inl n }
      | none => { r with quantity := Sum.inr value }
    else if pyIn tokInstr key && !(value == plInstr) then
      { r with instructions := value }
    else r

/-- The body of `parse_prescription`'s per-line loop: split on the first
colon, strip and lower-case the key, strip the value, then run the `elif`
chain; a line without a colon is ignored. -/
def processLine (r : ParsedPrescription) (line : List Char) : ParsedPrescription :=
  match splitColon line with
  | none => r
  | some (k, v) => processBranches r (pyLower (pyStrip k)) (pyStrip v)

/-- `parse_prescription` from `src/prescription_utils.py`: strip the text,
split it into lines, and fold the per-line `elif` chain over the defaults
(later lines overwrite earlier assignments). -/
def parse_prescription (text : List Char) : ParsedPrescription :=
  (splitLines (pyStrip text)).foldl processLine defaultResult

/-- The six fields a line can be classified to, in the priority order of
the `elif` chain. -/
inductive Field
  | patient
  | doctor
  | medicine
  | dosage
  | quantity
  | instructions
deriving DecidableEq, Fintype

/-- The token whose containment in the lower-cased key selects a field. -/
def tokenOf : Field → List Char
  | .patient => tokPatient
  | .doctor => tokDoctor
  | .medicine => tokMedicine
  | .dosage => tokDosage
  | .quantity => tokQuantity
  | .instructions => tokInstr

/-- The placeholder bracket-literal guarding each field's assignment. -/
def placeholderOf : Field → List Char
  | .patient => plPatient
  | .doctor => plDoctor
  | .medicine => plMedicine
  | .dosage => plDosage
  | .quantity => plQuantity
  | .instructions => plInstr

/-- Classification of a lower-cased key: the first token of the priority
order `patient, doctor, medicine, dosage, quantity, instructions` the key
contains, or `none` when the key contains no token. -/
def classify (key : List Char) : Option Field :=
  if pyIn tokPatient key then some .patient
  else if pyIn tokDoctor key then some .doctor
  else if pyIn tokMedicine key then some .medicine
  else if pyIn tokDosage key then some .dosage
  else if pyIn tokQuantity key then some .quantity
  else if pyIn tokInstr key then some .instructions
  else none

/-- Uniform projection of a record field (quantity already is a sum; the
five string fields are injected on the right). -/
def fieldVal (r : ParsedPrescription) : Field → Int ⊕ List Char
  | .patient => Sum.inr r.patient_name
  | .doctor => Sum.inr r.doctor_name
  | .medicine => Sum.inr r.medicine_name
  | .dosage => Sum.inr r.dosage
  | .quantity => r.quantity
  | .instructions => Sum.inr r.instructions

/-- Assignment of one field from a trimmed value, exactly as the matching
branch of the `elif` chain performs it (the quantity branch attempts the
integer conversion first). -/
def setField (r : ParsedPrescription) (f : Field) (value : List Char) : ParsedPrescription :=
  match f with
  | .patient => { r with patient_name := value }
  | .doctor => { r with doctor_name := value }
  | .medicine => { r with medicine_name := value }
  | .dosage => { r with dosage := value }
  | .quantity =>
    match pyInt value with
    | some n => { r with quantity := Sum.inl n }
    | none => { r with quantity := Sum.inr value }
  | .instructions => { r with instructions := value }

/-- A row of the `medicines` table.  The `REAL` price is carried as an
exact rational; no embedded operation computes with it. -/
structure Medicine where
  id : Nat
  name : List Char
  dosage : List Char
  quantity : Int
  price : Rat
deriving DecidableEq

/-- One suffix of the string accepted by the continuation: the search the
`%` wildcard performs. -/
def anySuffix (f : List Char → Bool) : List Char → Bool
  | [] => f []
  | c :: rest => f (c :: rest) || anySuffix f rest

/-- SQLite `LIKE` matching under the default collation: `%` matches any
run of characters, `_` any single character, and letters compare ASCII
case-insensitively. -/
def likeMatch : List Char → List Char → Bool
  | [], s => s.isEmpty
  | c :: ps, s =>
    if c = '%' then anySuffix (likeMatch ps) s
    else
      match s with
      | [] => false
      | d :: s2 => (c == '_' || pyToLower c == pyToLower d) && likeMatch ps s2

/-- The pattern `f"%{medicine_name}%"` the lookup binds to its query. -/
def likePattern (medicine_name : List Char) : List Char :=
  '%' :: (medicine_name ++ ['%'])

/-- `check_medicine_in_db`: `SELECT * FROM medicines WHERE name LIKE ?`
with the wildcard-wrapped pattern, `fetchone` returning the first row in
the store's natural order, and the pair `(result is not None, result)`. -/
def check_medicine_in_db (medicine_name : List Char) (db : List Medicine) :
    Bool × Option Medicine :=
  let r := db.find? (fun m => likeMatch (likePattern medicine_name) m.name)
  (r.isSome, r)

/-- A row of the `orders` table. -/
structure Order where
  id : Nat
  medicine_name : List Char
  quantity : Int
  patient_name : List Char
  doctor_name : List Char
  date : List Char
  status : List Char
deriving DecidableEq

/-- The largest rowid present in the orders table (`0` when empty). -/
def maxIds (db : List Order) : Nat :=
  (db.map (fun o => o.id)).foldr (fun a b => max a b) 0

/-- The rowid SQLite assigns to the next `INSERT` into an
`INTEGER PRIMARY KEY` table: one more than the largest existing rowid. -/
def nextId (db : List Order) : Nat := maxIds db + 1

/-- The `try int(quantity) except: quantity = 1` coercion of
`create_medicine_order`, applied only when the argument is a string. -/
def coerceQty : Int ⊕ List Char → Int
  | .inl n => n
  | .inr s =>
    match pyInt s with
    | some n => n
    | none => 1

/-- `create_medicine_order`: coerce a string quantity, insert the row with
the store-generated rowid, the caller-observed current date and the
`'Pending'` status default, and return `lastrowid`. -/
def create_medicine_order (medicine_name : List Char) (quantity : Int ⊕ List Char)
    (patient_name doctor_name today : List Char) (db : List Order) :
    Nat × List Order :=
  let oid := nextId db
  let row : Order :=
    { id := oid, medicine_name := medicine_name, quantity := coerceQty quantity,
      patient_name := patient_name, doctor_name := doctor_name, date := today,
      status := "Pending".toList }
  (oid, db ++ [row])

/-- The argument tuple of one `create_medicine_order` call. -/
structure CallArgs where
  medicine_name : List Char
  quantity : Int ⊕ List Char
  patient_name : List Char
  doctor_name : List Char
  today : List Char

/-- A sequence of `create_medicine_order` calls threaded through the store
(orders only inserted, never deleted): the returned ids in call order and
the final store. -/
def runOrders : List CallArgs → List Order → List Nat × List Order
  | [], db => ([], db)
  | a :: rest, db =>
    let step := create_medicine_order a.medicine_name a.quantity
      a.patient_name a.doctor_name a.today db
    let next := runOrders rest step.2
    (step.1 :: next.1, next.2)

/-- Python `hay.find(needle)`: the least index at which `needle` starts in
`hay`, `none` standing for the sentinel `-1`. -/
def findSub : List Char → List Char → Option Nat
  | hay, needle =>
    if needle.isPrefixOf hay then some 0
    else
      match hay with
      | [] => none
      | _ :: rest => (findSub rest needle).map (fun p => p + 1)

/-- `get_context`: case-insensitive search for the first occurrence of the
keyword, then the slice of the original text from 50 characters before the
match to 50 characters after its end (clamped to the text), wrapped in
ellipses; `none` when the keyword does not occur. -/
def get_context (text keyword : List Char) : Option (List Char) :=
  match findSub (pyLower text) (pyLower keyword) with
  | none => none
  | some p =>
    let start := p - 50
    let stop := min text.length (p + keyword.length + 50)
    let snippet := (text.drop start).take (stop - start)
    some ("...".toList ++ snippet ++ "...".toList)

/-- The sample rows `init_db` seeds an empty store with. -/
def seedMedicines : List Medicine :=
  [ { id := 1, name := "Amoxicillin".toList, dosage := "500mg".toList,
      quantity := 100, price := mkRat 1299 100 },
    { id := 2, name := "Lisinopril".toList, dosage := "10mg".toList,
      quantity := 50, price := mkRat 1550 100 },
    { id := 3, name := "Metformin".toList, dosage := "850mg".toList,
      quantity := 60, price := mkRat 875 100 },
    { id := 4, name := "Atorvastatin".toList, dosage := "20mg".toList,
      quantity := 30, price := mkRat 2200 100 },
    { id := 5, name := "Sertraline".toList, dosage := "50mg".toList,
      quantity := 45, price := mkRat 1825 100 } ]

/-! ## Helper lemmas -/

theorem processLine_split {r : ParsedPrescription} {line k v : List Char}
    (h : splitColon line = some (k, v)) :
    processLine r line = processBranches r (pyLower (pyStrip k)) (pyStrip v) := by
  unfold processLine
  rw [h]

theorem anySuffix_like_nil (s : List Char) : anySuffix (likeMatch []) s = true := by
  induction s with
  | nil => rfl
  | cons c rest ih => simp [anySuffix, ih]

theorem like_two_pct (s : List Char) : likeMatch ('%' :: '%' :: []) s = true := by
  induction s with
  | nil => rfl
  | cons c rest ih =>
    have h : anySuffix (likeMatch ['%']) rest = true := ih
    show (likeMatch ['%'] (c :: rest) || anySuffix (likeMatch ['%']) rest) = true
    rw [h, Bool.or_true]

theorem findSub_nil_needle (hay : List Char) : findSub hay [] = some 0 := by
  cases hay <;> simp [findSub, List.isPrefixOf]

/-! ## C4 -/

/-- C4: when `create_medicine_order` receives its quantity as a string, the
inserted order carries the integer conversion of that string when the
conversion succeeds, and exactly `1` when it fails; the call is total (the
`ValueError` is swallowed by the bare `except`). -/
theorem c4_string_quantity_coercion
    (mn s pn dn today : List Char) (db : List Order) :
    (∀ n : Int, pyInt s = some n →
      (create_medicine_order mn (Sum.inr s) pn dn today db).2 =
        db ++ [{ id := nextId db, medicine_name := mn, quantity := n,
                 patient_name := pn, doctor_name := dn, date := today,
                 status := "Pending".toList }]) ∧
    (pyInt s = none →
      (create_medicine_order mn (Sum.inr s) pn dn today db).2 =
        db ++ [{ id := nextId db, medicine_name := mn, quantity := 1,
                 patient_name := pn, doctor_name := dn, date := today,
                 status := "Pending".toList }]) := by
  constructor
  · intro n hn
    simp [create_medicine_order, coerceQty, hn]
  · intro hn
    simp [create_medicine_order, coerceQty, hn]

/-- Witness for C4 at the spec's own example: a non-numeric string
quantity `"abc"` falls back to `1` instead of failing. -/
theorem c4_string_quantity_coercion_witness :
    (create_medicine_order "Aspirin".toList (Sum.inr "abc".toList)
        "Alice".toList "Dr. Bob".toList "2026-10-12".toList []).2 =
      [{ id := 1, medicine_name := "Aspirin".toList, quantity := 1,
         patient_name := "Alice".toList, doctor_name := "Dr. Bob".toList,
         date := "2026-10-12".toList, status := "Pending".toList }] :=
  (c4_string_quantity_coercion "Aspirin".toList "abc".toList "Alice".toList
    "Dr. Bob".toList "2026-10-12".toList []).2 (by decide)

/-! ## C9 -/

/-- C9: with an empty search string the bound pattern degenerates to a bare
wildcard that accepts every stored name, so on any nonempty store the
lookup returns `found = true` with the first row in store order. -/
theorem c9_empty_name_lookup :
    (∀ s : List Char, likeMatch (likePattern []) s = true) ∧
    ∀ (m : Medicine) (rest : List Medicine),
      check_medicine_in_db [] (m :: rest) = (true, some m) := by
  constructor
  · intro s
    exact like_two_pct s
  · intro m rest
    have h : List.find? (fun x => likeMatch (likePattern []) x.name) (m :: rest) = some m :=
      List.find?_cons_of_pos _ (like_two_pct m.name)
    simp [check_medicine_in_db, h]

/-! ## C10 -/

/-- C10: with an empty keyword `get_context` never returns `none`: the
search finds position `0` and the snippet is the first
`min 50 (length text)` characters of the text wrapped in ellipses. -/
theorem c10_empty_keyword (text : List Char) :
    findSub (pyLower text) [] = some 0 ∧
    get_context text [] =
      some ("...".toList ++ text.take (min 50 text.length) ++ "...".toList) := by
  refine ⟨findSub_nil_needle _, ?_⟩
  unfold get_context
  rw [show pyLower ([] : List Char) = [] from rfl, findSub_nil_needle]
  simp [Nat.min_comm]

/-! ## C2 -/

theorem find?_first {α : Type} (p : α → Bool) (pre post : List α) (m : α)
    (hpre : ∀ x ∈ pre, p x = false) (hm : p m = true) :
    List.find? p (pre ++ m :: post) = some m := by
  induction pre with
  | nil => simpa using List.find?_cons_of_pos post hm
  | cons a pre ih =>
    rw [List.cons_append, List.find?_cons_of_neg]
    · exact ih (fun x hx => hpre x (List.mem_cons_of_mem _ hx))
    · simp [hpre a (List.mem_cons_self _ _)]

/-- C2 counterexample: in the seeded store, no row's name contains
`"amox"` as a case-sensitive substring (Python `in`), yet the lookup
returns `found = true` with the `Amoxicillin` row, because SQLite `LIKE`
compares ASCII letters case-insensitively.  This refutes the claim's
`found = false` clause for zero substring matches. -/
theorem c2_substring_lookup_cex :
    (∀ m ∈ seedMedicines, pyIn "amox".toList m.name = false) ∧
    check_medicine_in_db "amox".toList seedMedicines =
      (true, some { id := 1, name := "Amoxicillin".toList,
                    dosage := "500mg".toList, quantity := 100,
                    price := mkRat 1299 100 }) := by
  constructor
  · decide
  · rfl

/-- C2 amended: the match the lookup performs is SQLite `LIKE` on the
wildcard-wrapped pattern (ASCII case-insensitive; `%`/`_` inside the
searched name act as wildcards), not case-sensitive substring containment.
The lookup returns `found = true` with the first `LIKE`-matching row in
store order, and `found = false` with no record when no row matches. -/
theorem c2_substring_lookup_amended :
    (∀ (mn : List Char) (pre post : List Medicine) (m : Medicine),
      (∀ x ∈ pre, likeMatch (likePattern mn) x.name = false) →
      likeMatch (likePattern mn) m.name = true →
      check_medicine_in_db mn (pre ++ m :: post) = (true, some m)) ∧
    (∀ (mn : List Char) (db : List Medicine),
      (∀ x ∈ db, likeMatch (likePattern mn) x.name = false) →
      check_medicine_in_db mn db = (false, none)) := by
  constructor
  · intro mn pre post m hpre hm
    have h : List.find? (fun x => likeMatch (likePattern mn) x.name) (pre ++ m :: post) =
        some m := find?_first _ pre post m hpre hm
    simp [check_medicine_in_db, h]
  · intro mn db hall
    have h : List.find? (fun x => likeMatch (likePattern mn) x.name) db = none :=
      List.find?_eq_none.mpr (fun x hx => by simp [hall x hx])
    simp [check_medicine_in_db, h]

/-- Witness for C2 as amended, at the spec's own examples: `"amox"` finds
the seeded `Amoxicillin` row and a nonexistent name reports
`(false, none)`. -/
theorem c2_substring_lookup_amended_witness :
    check_medicine_in_db "amox".toList seedMedicines =
      (true, some { id := 1, name := "Amoxicillin".toList,
                    dosage := "500mg".toList, quantity := 100,
                    price := mkRat 1299 100 }) ∧
    check_medicine_in_db "zzz-nonexistent".toList seedMedicines = (false, none) := by
  constructor
  · exact c2_substring_lookup_amended.1 "amox".toList [] _ _
      (by intro x hx; cases hx) (by decide)
  · exact c2_substring_lookup_amended.2 "zzz-nonexistent".toList seedMedicines (by decide)

/-! ## C5 -/

theorem mem_le_maxIds {o : Order} {db : List Order} (h : o ∈ db) : o.id ≤ maxIds db := by
  induction db with
  | nil => cases h
  | cons a rest ih =>
    rcases List.mem_cons.mp h with h1 | h2
    · subst h1
      exact Nat.le_max_left _ _
    · exact Nat.le_trans (ih h2) (Nat.le_max_right _ _)

theorem maxIds_append_one (db : List Order) (o : Order) :
    maxIds (db ++ [o]) = max (maxIds db) o.id := by
  induction db with
  | nil => simp [maxIds]
  | cons a rest ih =>
    show max a.id (maxIds (rest ++ [o])) = max (max a.id (maxIds rest)) o.id
    rw [ih, Nat.max_assoc]

theorem nextId_create (mn : List Char) (q : Int ⊕ List Char)
    (pn dn today : List Char) (db : List Order) :
    nextId (create_medicine_order mn q pn dn today db).2 = nextId db + 1 := by
  show nextId (db ++ [_]) = _
  unfold nextId
  rw [maxIds_append_one]
  show max (maxIds db) (maxIds db + 1) + 1 = _
  rw [Nat.max_eq_right (Nat.le_succ _)]

theorem runOrders_cons (a : CallArgs) (rest : List CallArgs) (db : List Order) :
    runOrders (a :: rest) db =
      (nextId db :: (runOrders rest (create_medicine_order a.medicine_name a.quantity
          a.patient_name a.doctor_name a.today db).2).1,
        (runOrders rest (create_medicine_order a.medicine_name a.quantity
          a.patient_name a.doctor_name a.today db).2).2) := rfl

theorem nextId_le_runOrders_mem :
    ∀ (args : List CallArgs) (db : List Order) (i : Nat),
      i ∈ (runOrders args db).1 → nextId db ≤ i := by
  intro args
  induction args with
  | nil =>
    intro db i h
    cases h
  | cons a rest ih =>
    intro db i h
    rw [runOrders_cons] at h
    rcases List.mem_cons.mp h with h1 | h2
    · subst h1
      exact Nat.le_refl _
    · have h3 := ih _ _ h2
      rw [nextId_create] at h3
      exact Nat.le_trans (Nat.le_succ _) h3

/-- C5: over any sequence of `create_medicine_order` calls (orders only
inserted, never deleted), the returned `lastrowid` values are strictly
increasing, hence pairwise distinct. -/
theorem c5_order_ids_strictly_increasing (args : List CallArgs) (db : List Order) :
    List.Pairwise (fun i j => i < j) (runOrders args db).1 ∧
    (runOrders args db).1.Nodup := by
  have main : ∀ (as : List CallArgs) (d : List Order),
      List.Pairwise (fun i j => i < j) (runOrders as d).1 := by
    intro as
    induction as with
    | nil =>
      intro d
      exact List.Pairwise.nil
    | cons a rest ih =>
      intro d
      rw [runOrders_cons]
      refine List.Pairwise.cons ?_ (ih _)
      intro i hi
      have h3 := nextId_le_runOrders_mem rest _ i hi
      rw [nextId_create] at h3
      omega
  exact ⟨main args db, (main args db).imp (fun h => Nat.ne_of_lt h)⟩

/-! ## C7 -/

theorem splitColon_eq_none {l : List Char} (h : ':' ∉ l) : splitColon l = none := by
  induction l with
  | nil => rfl
  | cons c rest ih =>
    have hc : ¬(c = ':') := fun hc => h (by simp [hc])
    have hr : ':' ∉ rest := fun hm => h (List.mem_cons_of_mem _ hm)
    simp [splitColon, hc, ih hr]

theorem processLine_of_no_colon {r : ParsedPrescription} {line : List Char}
    (h : splitColon line = none) : processLine r line = r := by
  unfold processLine
  rw [h]

theorem foldl_processLine_id :
    ∀ (lines : List (List Char)) (r : ParsedPrescription),
      (∀ l ∈ lines, splitColon l = none) → lines.foldl processLine r = r := by
  intro lines
  induction lines with
  | nil =>
    intro r _
    rfl
  | cons a rest ih =>
    intro r h
    rw [List.foldl_cons, processLine_of_no_colon (h a (List.mem_cons_self _ _))]
    exact ih r (fun l hl => h l (List.mem_cons_of_mem _ hl))

theorem splitLines_colon_free :
    ∀ (s : List Char), ':' ∉ s → ∀ l ∈ splitLines s, ':' ∉ l := by
  intro s
  induction s with
  | nil =>
    intro _ l hl
    have : l = [] := by simpa [splitLines] using hl
    subst this
    exact List.not_mem_nil _
  | cons c rest ih =>
    intro h l hl
    have hc : ':' ≠ c := fun he => h (by rw [← he]; exact List.mem_cons_self _ _)
    have hr : ':' ∉ rest := fun hm => h (List.mem_cons_of_mem _ hm)
    unfold splitLines at hl
    by_cases hnl : c = '\n'
    · rw [if_pos hnl] at hl
      rcases List.mem_cons.mp hl with h1 | h2
      · subst h1
        exact List.not_mem_nil _
      · exact ih hr l h2
    · rw [if_neg hnl] at hl
      cases hsr : splitLines rest with
      | nil =>
        rw [hsr] at hl
        have : l = [c] := by simpa using hl
        subst this
        intro hm
        exact hc (by simpa using hm)
      | cons l0 ls =>
        rw [hsr] at hl
        rcases List.mem_cons.mp hl with h1 | h2
        · subst h1
          intro hm
          rcases List.mem_cons.mp hm with he | hm2
          · exact hc he
          · exact ih hr l0 (by rw [hsr]; exact List.mem_cons_self _ _) hm2
        · exact ih hr l (by rw [hsr]; exact List.mem_cons_of_mem _ h2)

theorem not_mem_pyStrip {c : Char} {s : List Char} (h : c ∉ s) : c ∉ pyStrip s := by
  intro hm
  apply h
  unfold pyStrip at hm
  rw [List.mem_reverse] at hm
  have h1 := (List.dropWhile_sublist isPySpace).mem hm
  rw [List.mem_reverse] at h1
  exact (List.dropWhile_sublist isPySpace).mem h1

/-- C7: `parse_prescription` is a total function into a record type with
exactly the six fields (totality and shape hold by construction of the
embedding), and an input containing no colon — in particular the empty
input — yields exactly the all-defaults record. -/
theorem c7_no_colon_all_defaults (text : List Char) (h : ':' ∉ text) :
    parse_prescription text = defaultResult := by
  unfold parse_prescription
  exact foldl_processLine_id _ _ (fun l hl => splitColon_eq_none
    (splitLines_colon_free _ (not_mem_pyStrip h) l hl))

/-- Witness for C7: a fully unstructured two-line input and the empty
input both give the all-defaults record. -/
theorem c7_no_colon_all_defaults_witness :
    (':' ∉ "hello world\nno fields here".toList ∧
      parse_prescription "hello world\nno fields here".toList = defaultResult) ∧
    (':' ∉ ([] : List Char) ∧ parse_prescription [] = defaultResult) :=
  ⟨⟨by decide, c7_no_colon_all_defaults _ (by decide)⟩,
   ⟨by decide, c7_no_colon_all_defaults [] (by decide)⟩⟩

/-! ## C8 -/

theorem bool_not_true {b : Bool} (h : ¬(b = true)) : b = false := by
  cases b
  · rfl
  · exact absurd rfl h

theorem findSub_some :
    ∀ {hay : List Char} {needle : List Char} {p : Nat},
      findSub hay needle = some p →
      needle.isPrefixOf (hay.drop p) = true ∧
        ∀ q, q < p → needle.isPrefixOf (hay.drop q) = false := by
  intro hay
  induction hay with
  | nil =>
    intro needle p h
    unfold findSub at h
    split at h
    · cases h
      refine ⟨by assumption, ?_⟩
      intro q hq
      omega
    · cases h
  | cons c rest ih =>
    intro needle p h
    unfold findSub at h
    split at h
    case isTrue hc =>
      cases h
      refine ⟨hc, ?_⟩
      intro q hq
      omega
    case isFalse hc =>
      rw [Option.map_eq_some'] at h
      obtain ⟨p0, hp0, rfl⟩ := h
      obtain ⟨ih1, ih2⟩ := ih hp0
      constructor
      · simpa [List.drop_succ_cons] using ih1
      · intro q hq
        cases q with
        | zero =>
          rw [List.drop_zero]
          exact bool_not_true hc
        | succ q0 =>
          rw [List.drop_succ_cons]
          exact ih2 q0 (Nat.lt_of_succ_lt_succ hq)

theorem findSub_none :
    ∀ {hay : List Char} {needle : List Char},
      findSub hay needle = none →
      ∀ q, needle.isPrefixOf (hay.drop q) = false := by
  intro hay
  induction hay with
  | nil =>
    intro needle h q
    unfold findSub at h
    split at h
    · cases h
    case isFalse hc =>
      rw [List.drop_nil]
      exact bool_not_true hc
  | cons c rest ih =>
    intro needle h q
    unfold findSub at h
    split at h
    · cases h
    case isFalse hc =>
      have h2 : findSub rest needle = none := by
        have h3 : Option.map (fun p => p + 1) (findSub rest needle) = none := h
        cases hfr : findSub rest needle with
        | none => rfl
        | some p0 =>
          rw [hfr] at h3
          cases h3
      cases q with
      | zero =>
        rw [List.drop_zero]
        exact bool_not_true hc
      | succ q0 =>
        rw [List.drop_succ_cons]
        exact ih h2 q0

theorem findSub_of_first {hay needle : List Char} {p : Nat}
    (h1 : needle.isPrefixOf (hay.drop p) = true)
    (h2 : ∀ q, q < p → needle.isPrefixOf (hay.drop q) = false) :
    findSub hay needle = some p := by
  cases hf : findSub hay needle with
  | none =>
    exact absurd h1 (by simp [findSub_none hf p])
  | some p2 =>
    obtain ⟨g1, g2⟩ := findSub_some hf
    rcases Nat.lt_trichotomy p p2 with hlt | heq | hgt
    · exact absurd h1 (by simp [g2 p hlt])
    · rw [heq]
    · exact absurd g1 (by simp [h2 p2 hgt])

/-- C8: when the lower-cased keyword first occurs at position `p` of the
lower-cased text, `get_context` returns the slice of the original text
from `max 0 (p - 50)` to `min (length text) (p + length keyword + 50)`
wrapped in ellipses; when the keyword never occurs, it returns `none`. -/
theorem c8_context_snippet (text keyword : List Char) :
    (∀ p : Nat,
      (pyLower keyword).isPrefixOf ((pyLower text).drop p) = true →
      (∀ q, q < p → (pyLower keyword).isPrefixOf ((pyLower text).drop q) = false) →
      get_context text keyword =
        some ("...".toList ++
          ((text.drop (p - 50)).take (min text.length (p + keyword.length + 50) - (p - 50))) ++
          "...".toList)) ∧
    ((∀ p : Nat, (pyLower keyword).isPrefixOf ((pyLower text).drop p) = false) →
      get_context text keyword = none) := by
  constructor
  · intro p h1 h2
    unfold get_context
    rw [findSub_of_first h1 h2]
  · intro hall
    unfold get_context
    cases hf : findSub (pyLower text) (pyLower keyword) with
    | none => rfl
    | some p =>
      exact absurd (findSub_some hf).1 (by simp [hall p])

/-- Witness for C8 at the spec's example (`"brown"` occurs first at
position 10 of the 19-character text, so the clamped snippet is the whole
text) and at a keyword that never occurs. -/
theorem c8_context_snippet_witness :
    get_context "the quick brown fox".toList "brown".toList =
      some "...the quick brown fox...".toList ∧
    get_context "abc".toList "xyz".toList = none := by
  constructor
  · exact (c8_context_snippet "the quick brown fox".toList "brown".toList).1 10
      (by decide) (by decide)
  · refine (c8_context_snippet "abc".toList "xyz".toList).2 ?_
    intro p
    rcases Nat.lt_or_ge p 3 with hp | hp
    · interval_cases p <;> decide
    · have hd : List.drop p (pyLower "abc".toList) = [] :=
        List.drop_eq_nil_of_le (by simpa using hp)
      rw [hd]
      decide

/-! ## C3 -/

/-- C3: a line classified to the quantity field whose trimmed value is not
the `[Quantity]` placeholder stores the integer conversion of the trimmed
value when `int(...)` succeeds, and the raw trimmed string — not the
default `0` — when it fails; the output quantity is hence an integer or a
string (the two sides of the sum). -/
theorem c3_quantity_line (r : ParsedPrescription) (line k v : List Char)
    (hsplit : splitColon line = some (k, v))
    (hcls : classify (pyLower (pyStrip k)) = some Field.quantity)
    (hv : pyStrip v ≠ plQuantity) :
    (∀ n : Int, pyInt (pyStrip v) = some n →
      processLine r line = { r with quantity := Sum.inl n }) ∧
    (pyInt (pyStrip v) = none →
      processLine r line = { r with quantity := Sum.inr (pyStrip v) }) := by
  rw [processLine_split hsplit]
  unfold classify at hcls
  split_ifs at hcls with h1 h2 h3 h4 h5 h6 <;> try exact absurd hcls (by decide)
  have e1 : pyIn tokPatient (pyLower (pyStrip k)) = false := bool_not_true h1
  have e2 : pyIn tokDoctor (pyLower (pyStrip k)) = false := bool_not_true h2
  have e3 : pyIn tokMedicine (pyLower (pyStrip k)) = false := bool_not_true h3
  have e4 : pyIn tokDosage (pyLower (pyStrip k)) = false := bool_not_true h4
  have e5 : (pyStrip v == plQuantity) = false := beq_eq_false_iff_ne.mpr hv
  constructor
  · intro n hn
    simp [processBranches, e1, e2, e3, e4, h5, e5, hn]
  · intro hn
    simp [processBranches, e1, e2, e3, e4, h5, e5, hn]

/-- Witness for C3 at the spec's example: `"Quantity: seven"` stores the
raw string `"seven"`. -/
theorem c3_quantity_line_witness :
    processLine defaultResult "Quantity: seven".toList =
      { defaultResult with quantity := Sum.inr "seven".toList } :=
  (c3_quantity_line defaultResult "Quantity: seven".toList "Quantity".toList
    " seven".toList (by decide) (by decide) (by decide)).2 (by decide)

/-! ## C6 -/

/-- C6: a colon line whose key contains several field tokens, with a value
that is no placeholder, assigns the trimmed value to the field of the
first token in the fixed order patient, doctor, medicine, dosage,
quantity, instructions — and to no other field (the record changes only at
that field, as `setField` performs). -/
theorem c6_multi_token_first_priority (r : ParsedPrescription) (line k v : List Char)
    (f g : Field)
    (hsplit : splitColon line = some (k, v))
    (hcls : classify (pyLower (pyStrip k)) = some f)
    (_hg : g ≠ f)
    (_hgIn : pyIn (tokenOf g) (pyLower (pyStrip k)) = true)
    (hv : ∀ f2 : Field, pyStrip v ≠ placeholderOf f2) :
    processLine r line = setField r f (pyStrip v) := by
  rw [processLine_split hsplit]
  have ep : (pyStrip v == plPatient) = false := beq_eq_false_iff_ne.mpr (hv .patient)
  have ed : (pyStrip v == plDoctor) = false := beq_eq_false_iff_ne.mpr (hv .doctor)
  have em : (pyStrip v == plMedicine) = false := beq_eq_false_iff_ne.mpr (hv .medicine)
  have eg : (pyStrip v == plDosage) = false := beq_eq_false_iff_ne.mpr (hv .dosage)
  have eq5 : (pyStrip v == plQuantity) = false := beq_eq_false_iff_ne.mpr (hv .quantity)
  have ei : (pyStrip v == plInstr) = false := beq_eq_false_iff_ne.mpr (hv .instructions)
  unfold classify at hcls
  cases f with
  | patient =>
    split_ifs at hcls with h1 h2 h3 h4 h5 h6 <;> try exact absurd hcls (by decide)
    simp [processBranches, setField, h1, ep]
  | doctor =>
    split_ifs at hcls with h1 h2 h3 h4 h5 h6 <;> try exact absurd hcls (by decide)
    simp [processBranches, setField, bool_not_true h1, h2, ed]
  | medicine =>
    split_ifs at hcls with h1 h2 h3 h4 h5 h6 <;> try exact absurd hcls (by decide)
    simp [processBranches, setField, bool_not_true h1, bool_not_true h2, h3, em]
  | dosage =>
    split_ifs at hcls with h1 h2 h3 h4 h5 h6 <;> try exact absurd hcls (by decide)
    simp [processBranches, setField, bool_not_true h1, bool_not_true h2,
      bool_not_true h3, h4, eg]
  | quantity =>
    split_ifs at hcls with h1 h2 h3 h4 h5 h6 <;> try exact absurd hcls (by decide)
    simp [processBranches, setField, bool_not_true h1, bool_not_true h2,
      bool_not_true h3, bool_not_true h4, h5, eq5]
  | instructions =>
    split_ifs at hcls with h1 h2 h3 h4 h5 h6 <;> try exact absurd hcls (by decide)
    simp [processBranches, setField, bool_not_true h1, bool_not_true h2,
      bool_not_true h3, bool_not_true h4, bool_not_true h5, h6, ei]

/-- Witness for C6: the key `"doctordosage"` contains both the doctor and
the dosage token; the value goes to `doctor_name` only. -/
theorem c6_multi_token_first_priority_witness :
    processLine defaultResult "doctordosage: twice daily".toList =
      setField defaultResult Field.doctor "twice daily".toList :=
  c6_multi_token_first_priority defaultResult "doctordosage: twice daily".toList
    "doctordosage".toList " twice daily".toList Field.doctor Field.dosage
    (by decide) (by decide) (by decide) (by decide) (by decide)

/-! ## C1 -/

/-- C1 counterexample: the line `"patient doctor: [Patient Name]"` is
classified to the patient field (first token of the priority order in the
key) and its trimmed value is exactly the patient placeholder, yet
processing the line does change the record: the fused `elif` chain falls
through and assigns `doctor_name`.  This refutes the claim that such a
line leaves every field unchanged. -/
theorem c1_placeholder_line_cex :
    splitColon "patient doctor: [Patient Name]".toList =
      some ("patient doctor".toList, " [Patient Name]".toList) ∧
    classify (pyLower (pyStrip "patient doctor".toList)) = some Field.patient ∧
    pyStrip " [Patient Name]".toList = placeholderOf Field.patient ∧
    processLine defaultResult "patient doctor: [Patient Name]".toList ≠ defaultResult :=
  ⟨by decide, by decide, by decide, by decide⟩

/-- C1 amended: on a classified line whose trimmed value equals the
classified field's placeholder, the classified field itself keeps its
default or previous value; but only when the key contains no other
field's token is the whole record guaranteed unchanged, because the
`elif` chain otherwise falls through to a later-priority token. -/
theorem c1_placeholder_line_amended (r : ParsedPrescription) (line k v : List Char)
    (f : Field)
    (hsplit : splitColon line = some (k, v))
    (hcls : classify (pyLower (pyStrip k)) = some f)
    (hv : pyStrip v = placeholderOf f) :
    fieldVal (processLine r line) f = fieldVal r f ∧
    ((∀ g : Field, g ≠ f → pyIn (tokenOf g) (pyLower (pyStrip k)) = false) →
      processLine r line = r) := by
  rw [processLine_split hsplit]
  cases f with
  | patient =>
    have ev : (pyStrip v == plPatient) = true := beq_iff_eq.mpr hv
    constructor
    · unfold processBranches
      simp only [ev, Bool.not_true, Bool.and_false]
      split_ifs <;> first
        | rfl
        | contradiction
        | (cases hpi : pyInt (pyStrip v) <;> rfl)
    · intro hno
      have e2 : pyIn tokDoctor (pyLower (pyStrip k)) = false := hno .doctor (by decide)
      have e3 : pyIn tokMedicine (pyLower (pyStrip k)) = false := hno .medicine (by decide)
      have e4 : pyIn tokDosage (pyLower (pyStrip k)) = false := hno .dosage (by decide)
      have e5 : pyIn tokQuantity (pyLower (pyStrip k)) = false := hno .quantity (by decide)
      have e6 : pyIn tokInstr (pyLower (pyStrip k)) = false := hno .instructions (by decide)
      simp [processBranches, ev, e2, e3, e4, e5, e6]
  | doctor =>
    have ev : (pyStrip v == plDoctor) = true := beq_iff_eq.mpr hv
    constructor
    · unfold processBranches
      simp only [ev, Bool.not_true, Bool.and_false]
      split_ifs <;> first
        | rfl
        | contradiction
        | (cases hpi : pyInt (pyStrip v) <;> rfl)
    · intro hno
      have e1 : pyIn tokPatient (pyLower (pyStrip k)) = false := hno .patient (by decide)
      have e3 : pyIn tokMedicine (pyLower (pyStrip k)) = false := hno .medicine (by decide)
      have e4 : pyIn tokDosage (pyLower (pyStrip k)) = false := hno .dosage (by decide)
      have e5 : pyIn tokQuantity (pyLower (pyStrip k)) = false := hno .quantity (by decide)
      have e6 : pyIn tokInstr (pyLower (pyStrip k)) = false := hno .instructions (by decide)
      simp [processBranches, ev, e1, e3, e4, e5, e6]
  | medicine =>
    have ev : (pyStrip v == plMedicine) = true := beq_iff_eq.mpr hv
    constructor
    · unfold processBranches
      simp only [ev, Bool.not_true, Bool.and_false]
      split_ifs <;> first
        | rfl
        | contradiction
        | (cases hpi : pyInt (pyStrip v) <;> rfl)
    · intro hno
      have e1 : pyIn tokPatient (pyLower (pyStrip k)) = false := hno .patient (by decide)
      have e2 : pyIn tokDoctor (pyLower (pyStrip k)) = false := hno .doctor (by decide)
      have e4 : pyIn tokDosage (pyLower (pyStrip k)) = false := hno .dosage (by decide)
      have e5 : pyIn tokQuantity (pyLower (pyStrip k)) = false := hno .quantity (by decide)
      have e6 : pyIn tokInstr (pyLower (pyStrip k)) = false := hno .instructions (by decide)
      simp [processBranches, ev, e1, e2, e4, e5, e6]
  | dosage =>
    have ev : (pyStrip v == plDosage) = true := beq_iff_eq.mpr hv
    constructor
    · unfold processBranches
      simp only [ev, Bool.not_true, Bool.and_false]
      split_ifs <;> first
        | rfl
        | contradiction
        | (cases hpi : pyInt (pyStrip v) <;> rfl)
    · intro hno
      have e1 : pyIn tokPatient (pyLower (pyStrip k)) = false := hno .patient (by decide)
      have e2 : pyIn tokDoctor (pyLower (pyStrip k)) = false := hno .doctor (by decide)
      have e3 : pyIn tokMedicine (pyLower (pyStrip k)) = false := hno .medicine (by decide)
      have e5 : pyIn tokQuantity (pyLower (pyStrip k)) = false := hno .quantity (by decide)
      have e6 : pyIn tokInstr (pyLower (pyStrip k)) = false := hno .instructions (by decide)
      simp [processBranches, ev, e1, e2, e3, e5, e6]
  | quantity =>
    have ev : (pyStrip v == plQuantity) = true := beq_iff_eq.mpr hv
    constructor
    · unfold processBranches
      simp only [ev, Bool.not_true, Bool.and_false]
      split_ifs <;> first
        | rfl
        | contradiction
    · intro hno
      have e1 : pyIn tokPatient (pyLower (pyStrip k)) = false := hno .patient (by decide)
      have e2 : pyIn tokDoctor (pyLower (pyStrip k)) = false := hno .doctor (by decide)
      have e3 : pyIn tokMedicine (pyLower (pyStrip k)) = false := hno .medicine (by decide)
      have e4 : pyIn tokDosage (pyLower (pyStrip k)) = false := hno .dosage (by decide)
      have e6 : pyIn tokInstr (pyLower (pyStrip k)) = false := hno .instructions (by decide)
      simp [processBranches, ev, e1, e2, e3, e4, e6]
  | instructions =>
    have ev : (pyStrip v == plInstr) = true := beq_iff_eq.mpr hv
    constructor
    · unfold processBranches
      simp only [ev, Bool.not_true, Bool.and_false]
      split_ifs <;> first
        | rfl
        | contradiction
        | (cases hpi : pyInt (pyStrip v) <;> rfl)
    · intro hno
      have e1 : pyIn tokPatient (pyLower (pyStrip k)) = false := hno .patient (by decide)
      have e2 : pyIn tokDoctor (pyLower (pyStrip k)) = false := hno .doctor (by decide)
      have e3 : pyIn tokMedicine (pyLower (pyStrip k)) = false := hno .medicine (by decide)
      have e4 : pyIn tokDosage (pyLower (pyStrip k)) = false := hno .dosage (by decide)
      have e5 : pyIn tokQuantity (pyLower (pyStrip k)) = false := hno .quantity (by decide)
      simp [processBranches, ev, e1, e2, e3, e4, e5]

/-- Witness for the amended C1: `"Patient: [Patient Name]"` (a key with a
single token) keeps the patient field and the whole record unchanged. -/
theorem c1_placeholder_line_amended_witness :
    fieldVal (processLine defaultResult "Patient: [Patient Name]".toList) Field.patient =
      fieldVal defaultResult Field.patient ∧
    processLine defaultResult "Patient: [Patient Name]".toList = defaultResult := by
  have h := c1_placeholder_line_amended defaultResult "Patient: [Patient Name]".toList
    "Patient".toList " [Patient Name]".toList Field.patient (by decide) (by decide) (by decide)
  exact ⟨h.1, h.2 (by decide)⟩

end PharmacyAssistant
